import Mathlib

/-!
Verification of the vote-tallying and schedule-validation core of
`src/src/App.tsx` (Nominaciones_Home_Office).

The embedding translates the source functions `randomInt`, `findGerenteId`,
`computeResults`, `isValidSchedule`, `sanitizeText` and `getScheduleStatus`
into pure Lean functions.

Randomness: the source draws random numbers with `randomInt(min, max)`,
whose cryptographic branch computes `min + (x % (max - min + 1))` for a
fresh 32-bit value `x`.  The embedding makes the entropy explicit: the
computations take a list of drawn raw values (`ent : List Nat`) and consume
them in call order (one value per `randomInt` invocation).

JavaScript object semantics: `Record<string, number>` maps are modelled as
association lists in insertion order.  `Object.keys` enumeration follows
the ECMAScript own-property order: array-index-like keys first, in
ascending numeric order, then the remaining string keys in insertion
order; this is modelled by `objectKeys`.
-/

namespace HomeOffice

/-- Roles of a `User` (the union type of the source). -/
inductive Role where
  | Integrante
  | Jefatura
  | Gerente
  | Admin
  | Asistente
  deriving DecidableEq

/-- The `User` type of the source (`photo` is optional and never read by the
core; `team` is one of five fixed strings, modelled as `String`). -/
structure User where
  id : String
  name : String
  role : Role
  title : String
  team : String
  deriving DecidableEq

/-- The `Nomination` type of the source.  `computeResults` receives the
nomination list but never reads it. -/
structure Nomination where
  id : String
  candidateId : String
  projectId : String
  reason : String
  nominatedByUserId : String
  deriving DecidableEq

/-- The `Vote` type of the source: one ballot. -/
structure Vote where
  voterId : String
  picks : List String
  deriving DecidableEq

/-- The `ResultRow` type of the source. -/
structure ResultRow where
  candidateId : String
  votes : Nat
  days : Nat
  deriving DecidableEq

/-- Options record of `computeResults`. -/
structure Options where
  discardOneRandomVote : Bool
  enableGerenteBonus : Bool
  deriving DecidableEq

/-- Return value of `computeResults` (`discardedVoterId` is optional). -/
structure ComputeOut where
  rows : List ResultRow
  discardedVoterId : Option String
  deriving DecidableEq

def defaultVote : Vote := { voterId := "", picks := [] }

def defaultRow : ResultRow := { candidateId := "", votes := 0, days := 0 }

def defaultUser : User :=
  { id := "", name := "", role := Role.Integrante, title := "", team := "" }

/-- `randomInt(min, max)` of the source, cryptographic branch:
`min + (e % (max - min + 1))` where `e` is the raw 32-bit draw. -/
def randomInt (e min max : Nat) : Nat :=
  min + e % (max - min + 1)

/-- `findGerenteId`: first roster member whose role is `"Gerente"` or whose
title is `"CIO"`.  The source memoizes this lookup in `GERENTE_CACHE`
keyed by array reference; the function itself is pure, so the cache is
semantically transparent and omitted here. -/
def findGerenteId (users : List User) : Option String :=
  (users.find? (fun u => u.role = Role.Gerente || u.title == "CIO")).map (fun u => u.id)

/-- `gerenteId || null` of the source: a found id that is the empty string
is falsy in JavaScript and degrades to `null`. -/
def resolveGerente : Option String → Option String
  | some s => if s == "" then none else some s
  | none => none

/-- One `counts[cid] = (counts[cid] || 0) + 1` step on the insertion-ordered
association list modelling the `counts` object. -/
def bumpCount : List (String × Nat) → String → List (String × Nat)
  | [], cid => [(cid, 1)]
  | q :: qs, cid =>
    if q.1 == cid then (q.1, q.2 + 1) :: qs else q :: bumpCount qs cid

/-- The tally loop of `computeResults`: every pick of every used ballot
increments its candidate's counter (one increment per occurrence). -/
def tally (usedVotes : List Vote) : List (String × Nat) :=
  usedVotes.foldl (fun acc v => v.picks.foldl bumpCount acc) []

/-- Decimal digit test on characters (kernel-computable form of
`Char.isDigit`). -/
def isDigitChar (c : Char) : Bool :=
  48 ≤ c.toNat && c.toNat ≤ 57

def digitsToNatAux : List Char → Nat → Option Nat
  | [], acc => some acc
  | c :: cs, acc =>
    if isDigitChar c then digitsToNatAux cs (acc * 10 + (c.toNat - 48)) else none

/-- Numeric value of a non-empty all-digit character list (kernel-computable
form of `String.toNat?`). -/
def digitsToNat? : List Char → Option Nat
  | [] => none
  | c :: cs => digitsToNatAux (c :: cs) 0

/-- True exactly when the characters spell a canonical decimal numeral:
`"0"`, or digits without a leading zero. -/
def isCanonicalNat : List Char → Bool
  | [] => false
  | [c] => isDigitChar c
  | c :: cs => c != '0' && isDigitChar c && (c :: cs).all isDigitChar

/-- True exactly when `s` is an ECMAScript array-index property key: a
canonical numeric string with value below `2^32 - 1`. -/
def isArrayIndexKey (s : String) : Bool :=
  isCanonicalNat s.data &&
    (match digitsToNat? s.data with
     | some n => decide (n < 4294967295)
     | none => false)

def keyNum (s : String) : Nat := (digitsToNat? s.data).getD 0

/-- Ascending insertion by numeric key value (array-index keys are pairwise
numerically distinct, so stability is irrelevant). -/
def insertByNum (p : String × Nat) : List (String × Nat) → List (String × Nat)
  | [] => [p]
  | q :: qs =>
    if keyNum p.1 < keyNum q.1 then p :: q :: qs else q :: insertByNum p qs

def sortNumericKeys (l : List (String × Nat)) : List (String × Nat) :=
  l.foldl (fun acc p => insertByNum p acc) []

/-- ECMAScript own-property enumeration order used by `Object.keys(counts)`:
array-index-like keys in ascending numeric order first, then the remaining
keys in insertion order. -/
def objectKeys (counts : List (String × Nat)) : List (String × Nat) :=
  sortNumericKeys (counts.filter (fun p => isArrayIndexKey p.1)) ++
    counts.filter (fun p => !isArrayIndexKey p.1)

/-- `Object.keys(counts).map(cid => ({candidateId: cid, votes: counts[cid], days: 0}))`. -/
def rowsOfCounts (counts : List (String × Nat)) : List ResultRow :=
  (objectKeys counts).map (fun p => { candidateId := p.1, votes := p.2, days := 0 })

/-- Stable insertion used to model `rows.sort((a, b) => b.votes - a.votes)`:
a row is inserted after every row with at least as many votes. -/
def insertRow (r : ResultRow) : List ResultRow → List ResultRow
  | [] => [r]
  | x :: xs => if x.votes < r.votes then r :: x :: xs else x :: insertRow r xs

/-- Stable descending sort by votes (ECMAScript `Array.prototype.sort` is
stable, so any stable sort with the same comparator yields the same list). -/
def sortRows (l : List ResultRow) : List ResultRow :=
  l.foldl (fun acc r => insertRow r acc) []

/-- `Set.add` on the insertion-ordered list modelling `uniqueVoters`. -/
def addToSet (s : List String) (x : String) : List String :=
  if s.contains x then s else s ++ [x]

/-- The distinct voters (in first-appearance order) among `usedVotes` whose
pick list contains `cid`; its length is the `uniqueVoters.size` of the source. -/
def votersFor (usedVotes : List Vote) (cid : String) : List String :=
  usedVotes.foldl (fun s v => if v.picks.contains cid then addToSet s v.voterId else s) []

/-- `gerenteIdResolved && uniqueVoters.has(gerenteIdResolved)`. -/
def gerenteAmong (g : Option String) (voters : List String) : Bool :=
  match g with
  | some gid => voters.contains gid
  | none => false

/-- The base day-award computation for one top-three candidate
(`let days = 0; if (n >= 2) days = 1; ...` of the source). -/
def baseDaysFor (usedVotes : List Vote) (g : Option String) (cid : String) : Nat :=
  let uniqueVoters := votersFor usedVotes cid
  let hasGerente := gerenteAmong g uniqueVoters
  let n := uniqueVoters.length
  let d1 := if 2 ≤ n then 1 else 0
  let d2 := if 3 ≤ n ∧ !hasGerente then 2 else d1
  if 3 ≤ n ∧ hasGerente then 3 else d2

/-- `daysPerCandidate[cid] = v` on the association list modelling the
`daysPerCandidate` object. -/
def setDays : List (String × Nat) → String → Nat → List (String × Nat)
  | [], cid, v => [(cid, v)]
  | q :: qs, cid, v =>
    if q.1 == cid then (q.1, v) :: qs else q :: setDays qs cid v

/-- `daysPerCandidate[cid] || 0`. -/
def lookupDays (m : List (String × Nat)) (cid : String) : Nat :=
  match m.find? (fun p => p.1 == cid) with
  | some p => p.2
  | none => 0

/-- The `top3.forEach` loop filling `daysPerCandidate` with base day awards. -/
def baseDaysMap (usedVotes : List Vote) (g : Option String) (top3 : List ResultRow) :
    List (String × Nat) :=
  top3.foldl (fun m r => setDays m r.candidateId (baseDaysFor usedVotes g r.candidateId)) []

/-- The `gerenteVote.picks.forEach` bonus loop: each pick draws a fresh
`randomInt(1, 3)` and adds it to that candidate's day award. -/
def applyBonus : List (String × Nat) → List String → List Nat → List (String × Nat)
  | m, [], _ => m
  | m, cid :: rest, ent =>
    applyBonus (setDays m cid (lookupDays m cid + randomInt (ent.headD 0) 1 3)) rest ent.tail

/-- The final `rows.map((r, i) => ({...r, days: i < 3 ? (daysPerCandidate[r.candidateId] || 0) : 0}))`,
with `i` the running index starting at the given value. -/
def assignDays (m : List (String × Nat)) : Nat → List ResultRow → List ResultRow
  | _, [] => []
  | i, r :: rs =>
    { r with days := if i < 3 then lookupDays m r.candidateId else 0 } :: assignDays m (i + 1) rs

/-- `votes.filter((_, i) => i !== idx)`: remove exactly the element at the
given index, keeping order. -/
def removeIdx : List Vote → Nat → List Vote
  | [], _ => []
  | _ :: xs, 0 => xs
  | x :: xs, n + 1 => x :: removeIdx xs n

/-- The ballots actually tallied: if the discard option is on and ballots
exist, the ballot at index `randomInt(0, votes.length - 1)` is excluded. -/
def usedVotesOf (votes : List Vote) (options : Options) (ent : List Nat) : List Vote :=
  if options.discardOneRandomVote && !votes.isEmpty then
    removeIdx votes (randomInt (ent.headD 0) 0 (votes.length - 1))
  else votes

/-- Entropy remaining after the (possible) discard draw. -/
def entAfterDiscard (votes : List Vote) (options : Options) (ent : List Nat) : List Nat :=
  if options.discardOneRandomVote && !votes.isEmpty then ent.tail else ent

/-- `discardedVoterId`: the voter identity of the excluded ballot, set
exactly when a ballot was excluded. -/
def discardedOf (votes : List Vote) (options : Options) (ent : List Nat) : Option String :=
  if options.discardOneRandomVote && !votes.isEmpty then
    some ((votes.getD (randomInt (ent.headD 0) 0 (votes.length - 1)) defaultVote).voterId)
  else none

/-- The post-discard part of `computeResults`: tally, stable sort, base day
awards for the top three, optional Gerente bonus, and the final row map. -/
def computeCore (usedVotes : List Vote) (gerenteId : Option String)
    (enableGerenteBonus : Bool) (ent : List Nat) : List ResultRow :=
  let sorted := sortRows (rowsOfCounts (tally usedVotes))
  let top3 := sorted.take 3
  let g := resolveGerente gerenteId
  let base := baseDaysMap usedVotes g top3
  let dpc :=
    match g with
    | some gid =>
      if enableGerenteBonus then
        match usedVotes.find? (fun v => v.voterId == gid) with
        | some gv => applyBonus base gv.picks ent
        | none => base
      else base
    | none => base
  assignDays dpc 0 sorted

/-- `computeResults` of the source.  The `nominations` parameter is part of
the source signature but is never read. -/
def computeResults (nominations : List Nomination) (votes : List Vote) (users : List User)
    (options : Options) (ent : List Nat) : ComputeOut :=
  { rows :=
      computeCore (usedVotesOf votes options ent) (findGerenteId users)
        options.enableGerenteBonus (entAfterDiscard votes options ent)
    discardedVoterId := discardedOf votes options ent }

/-! ### Schedule validation -/

/-- Result record of `isValidSchedule` (`{ ok, reason? }`). -/
structure ScheduleResult where
  ok : Bool
  reason : Option String
  deriving DecidableEq

def MS_PER_DAY : Int := 24 * 60 * 60 * 1000

def isLeapYear (y : Nat) : Bool :=
  (y % 4 == 0 && y % 100 != 0) || y % 400 == 0

/-- Cumulative days before month `m` in a non-leap year. -/
def daysBeforeMonth (m : Nat) : Nat :=
  [0, 31, 59, 90, 120, 151, 181, 212, 243, 273, 304, 334].getD (m - 1) 0

/-- Days since 1970-01-01 of the proleptic Gregorian date `y-m-d`; this is
the calendar arithmetic behind `new Date("y-m-dT00:00:00Z").getTime()`. -/
def epochDayOfDate (y m d : Nat) : Int :=
  let leapExtra : Nat := if 2 < m ∧ isLeapYear y then 1 else 0
  ((365 * (y - 1) + (y - 1) / 4 - (y - 1) / 100 + (y - 1) / 400 +
      daysBeforeMonth m + leapExtra + (d - 1) : Nat) : Int) - 719162

/-- Character-level split on `'-'` (kernel-computable form of
`String.splitOn "-"`). -/
def splitOnDash : List Char → List (List Char)
  | [] => [[]]
  | c :: cs =>
    if c == '-' then [] :: splitOnDash cs
    else
      match splitOnDash cs with
      | g :: gs => (c :: g) :: gs
      | [] => [[c]]

/-- Split an ISO `YYYY-MM-DD` string into numeric components. -/
def parseDate (s : String) : Option (Nat × Nat × Nat) :=
  match splitOnDash s.data with
  | [ys, ms, ds] =>
    match digitsToNat? ys, digitsToNat? ms, digitsToNat? ds with
    | some y, some m, some d => some (y, m, d)
    | _, _, _ => none
  | _ => none

def daysInMonth (y m : Nat) : Nat :=
  if m == 2 then (if isLeapYear y then 29 else 28)
  else if m == 4 || m == 6 || m == 9 || m == 11 then 30
  else 31

/-- A well-formed `YYYY-MM-DD` string denoting an actual calendar date
(the domain on which `new Date(s + "T00:00:00Z")` is not `NaN`). -/
def isValidDateStr (s : String) : Bool :=
  match splitOnDash s.data with
  | [ys, ms, ds] =>
    ys.length == 4 && ms.length == 2 && ds.length == 2 &&
      (match digitsToNat? ys, digitsToNat? ms, digitsToNat? ds with
       | some y, some m, some d =>
         y != 0 && m != 0 && decide (m ≤ 12) && d != 0 && decide (d ≤ daysInMonth y m)
       | _, _, _ => false)
  | _ => false

/-- Epoch day of a date string.  A string outside the modelled domain
(`NaN` in JavaScript) is mapped to epoch day 0; theorems about
`isValidSchedule` restrict to valid date strings. -/
def epochDayOfStr (s : String) : Int :=
  match parseDate s with
  | some (y, m, d) => epochDayOfDate y m d
  | none => 0

/-- `getUTCDay()` of the date string: 0 = Sunday … 6 = Saturday
(1970-01-01 was a Thursday, day 4). -/
def utcDayOfWeek (s : String) : Int :=
  (epochDayOfStr s + 4) % 7

/-- The parsing loop of `isValidSchedule`: reject on the first Monday,
otherwise collect the millisecond timestamps in input order.  (The source
also stores each `dayOfWeek` in `dateInfo`; it is never read after the
in-loop Monday check, so only timestamps are kept here.) -/
def buildDateInfo : List String → Except String (List Int)
  | [] => .ok []
  | d :: rest =>
    if utcDayOfWeek d == 1 then .error "No se permiten lunes"
    else
      match buildDateInfo rest with
      | .ok ts => .ok (epochDayOfStr d * MS_PER_DAY :: ts)
      | .error e => .error e

/-- Ascending stable insertion modelling `dateInfo.sort((a, b) => a.timestamp - b.timestamp)`. -/
def insertTs (t : Int) : List Int → List Int
  | [] => [t]
  | x :: xs => if t < x then t :: x :: xs else x :: insertTs t xs

def sortTs (l : List Int) : List Int :=
  l.foldl (fun acc t => insertTs t acc) []

/-- The consecutive-day scan: some adjacent pair of the (sorted) timestamps
differs by exactly `MS_PER_DAY`. -/
def hasConsecutive : List Int → Bool
  | a :: b :: rest => (b - a == MS_PER_DAY) || hasConsecutive (b :: rest)
  | _ => false

/-- `isValidSchedule` of the source. -/
def isValidSchedule (days : List String) : ScheduleResult :=
  if days.isEmpty then { ok := false, reason := some "Selecciona al menos un día" }
  else
    match buildDateInfo days with
    | .error e => { ok := false, reason := some e }
    | .ok ts =>
      if hasConsecutive (sortTs ts) then
        { ok := false, reason := some "No se permiten días consecutivos" }
      else { ok := true, reason := none }

/-! ### Schedule status formatting -/

/-- The HTML entity substitution of `sanitizeText` (`HTML_ENTITIES`). -/
def htmlEntity (c : Char) : String :=
  if c == '<' then "&lt;"
  else if c == '>' then "&gt;"
  else if c == Char.ofNat 34 then "&quot;"
  else if c == Char.ofNat 39 then "&#x27;"
  else if c == '&' then "&amp;"
  else String.singleton c

/-- A character matched by the `/[<>"'&]/g` pattern of `sanitizeText`. -/
def isHtmlSpecial (c : Char) : Bool :=
  c == '<' || c == '>' || c == Char.ofNat 34 || c == Char.ofNat 39 || c == '&'

def sanitizeChars : List Char → List Char
  | [] => []
  | c :: cs => (htmlEntity c).data ++ sanitizeChars cs

/-- `sanitizeText`: per-character replacement of the five HTML-special
characters by their entities. -/
def sanitizeText (s : String) : String :=
  ⟨sanitizeChars s.data⟩

/-- Status record returned by `getScheduleStatus`. -/
structure ScheduleStatus where
  message : String
  isError : Bool
  deriving DecidableEq

/-- `getScheduleStatus` of the source (`if (error)` is the JavaScript
truthiness test, i.e. `error` is non-empty). -/
def getScheduleStatus (selectedDays targetDays : Nat) (error : String) : ScheduleStatus :=
  if error ≠ "" then { message := sanitizeText error, isError := true }
  else if selectedDays = targetDays then { message := "Listo para programar", isError := false }
  else { message := "Selecciona las fechas requeridas", isError := false }

/-! ### Specification-side definitions (used to state the claims) -/

/-- Modelled from the spec (§4.2 step 5): the base day-award table as a
function of the number of distinct voters and Executive participation. -/
def specBaseDays (n : Nat) (hasExec : Bool) : Nat :=
  if n ≤ 1 then 0
  else if n = 2 then 1
  else if hasExec then 3 else 2

/-- The candidate identities in the order in which they are first
encountered during tally iteration over the used ballots' pick lists. -/
def firstSeenOrder (usedVotes : List Vote) : List String :=
  usedVotes.foldl
    (fun acc v => v.picks.foldl (fun acc cid => if acc.contains cid then acc else acc ++ [cid]) acc)
    []

/-- Total bonus added to candidate `cid` by the Gerente bonus loop over
picks `picks` with entropy `ent`. -/
def bonusSum : List String → List Nat → String → Nat
  | [], _, _ => 0
  | p :: rest, ent, cid =>
    (if p == cid then randomInt (ent.headD 0) 1 3 else 0) + bonusSum rest ent.tail cid

/-- Spec-side consecutive-day test: after chronological sorting, some
adjacent pair of epoch days differs by exactly one calendar day. -/
def hasAdjacentDiffOne : List Int → Bool
  | a :: b :: rest => (b - a == 1) || hasAdjacentDiffOne (b :: rest)
  | _ => false

def specHasConsecutive (days : List String) : Bool :=
  hasAdjacentDiffOne (sortTs (days.map epochDayOfStr))

/-! ### Concrete instances used by counterexamples and witnesses -/

/-- Roster with a single Executive `g` (role `Gerente`, title `CIO`). -/
def usersG : List User :=
  [{ id := "g", name := "G", role := Role.Gerente, title := "CIO", team := "GTI" }]

/-- Four tied candidates: `d` is ranked fourth and appears only on the
Executive's ballot. -/
def votesC1 : List Vote :=
  [{ voterId := "x", picks := ["ca", "cb", "cc"] },
   { voterId := "g", picks := ["d"] }]

/-- Roster whose first member matches only by title (`CIO`, role
`Integrante`) and whose second member matches by role (`Gerente`). -/
def usersC2 : List User :=
  [{ id := "a", name := "A", role := Role.Integrante, title := "CIO", team := "GTI" },
   { id := "b", name := "B", role := Role.Gerente, title := "Dir", team := "GTI" }]

/-- A single ballot whose picks are a plain string id and an
array-index-like id. -/
def votesC4 : List Vote := [{ voterId := "x", picks := ["b", "1"] }]

/-- Three ballots (one of them the Executive's) all picking candidate `c`. -/
def votesC5 : List Vote :=
  [{ voterId := "a", picks := ["c"] },
   { voterId := "b", picks := ["c"] },
   { voterId := "g", picks := ["c"] }]

/-- The four-ballot discard scenario of the spec's testable properties. -/
def votesC6 : List Vote :=
  [{ voterId := "v1", picks := ["c"] },
   { voterId := "v2", picks := ["c"] },
   { voterId := "v3", picks := ["d"] },
   { voterId := "v4", picks := ["c"] }]

/-- A roster prefix matching neither by role nor by title. -/
def preC2 : List User :=
  [{ id := "p", name := "P", role := Role.Jefatura, title := "Head", team := "Desarrollo" }]

/-- An Executive matching by role only. -/
def gerenteC2 : User :=
  { id := "g2", name := "G2", role := Role.Gerente, title := "Dir", team := "GTI" }

/-! ## Theorems -/

/-! ### General helper lemmas -/

theorem computeCore_no_bonus (u : List Vote) (g : Option String) (ent ent' : List Nat) :
    computeCore u g false ent = computeCore u g false ent' := by
  cases hg : resolveGerente g <;> simp [computeCore, hg]

theorem lookupDays_cons (q : String × Nat) (qs : List (String × Nat)) (x : String) :
    lookupDays (q :: qs) x = if q.1 == x then q.2 else lookupDays qs x := by
  cases h : q.1 == x <;> simp [lookupDays, List.find?, h]

theorem lookupDays_setDays (m : List (String × Nat)) (c x : String) (v : Nat) :
    lookupDays (setDays m c v) x = if c == x then v else lookupDays m x := by
  induction m with
  | nil =>
    cases h : c == x <;> simp [setDays, lookupDays, List.find?, h]
  | cons q qs ih =>
    by_cases hqc : q.1 = c
    · subst hqc
      cases hx : q.1 == x <;> simp [setDays, lookupDays_cons, hx]
    · have hqc' : (q.1 == c) = false := by simp [hqc]
      by_cases hcx : c = x
      · subst hcx
        simp [setDays, hqc', lookupDays_cons, ih]
      · have hcx' : (c == x) = false := by simp [hcx]
        simp [setDays, hqc', lookupDays_cons, ih, hcx']

theorem lookupDays_baseFold (f : String → Nat) (l : List ResultRow)
    (m : List (String × Nat)) (x : String) :
    lookupDays (l.foldl (fun m r => setDays m r.candidateId (f r.candidateId)) m) x =
      if l.any (fun r => r.candidateId == x) then f x else lookupDays m x := by
  induction l generalizing m with
  | nil => simp
  | cons r rs ih =>
    simp only [List.foldl_cons, List.any_cons, ih, lookupDays_setDays]
    by_cases hrx : r.candidateId = x
    · subst hrx
      by_cases h2 : rs.any (fun q => q.candidateId == r.candidateId) <;> simp [h2]
    · have : (r.candidateId == x) = false := by simp [hrx]
      simp [this]

theorem randomInt_bonus_bounds (e : Nat) :
    1 ≤ randomInt e 1 3 ∧ randomInt e 1 3 ≤ 3 := by
  unfold randomInt
  have : e % 3 < 3 := Nat.mod_lt _ (by omega)
  omega

theorem lookupDays_applyBonus (picks : List String) (ent : List Nat)
    (m : List (String × Nat)) (x : String) :
    lookupDays (applyBonus m picks ent) x = lookupDays m x + bonusSum picks ent x := by
  induction picks generalizing ent m with
  | nil => simp [applyBonus, bonusSum]
  | cons p rest ih =>
    simp only [applyBonus, bonusSum, ih, lookupDays_setDays]
    by_cases hpx : p = x
    · subst hpx
      simp [Nat.add_assoc]
    · have : (p == x) = false := by simp [hpx]
      simp [this]

theorem bonusSum_bounds (picks : List String) (ent : List Nat) (x : String) :
    picks.count x ≤ bonusSum picks ent x ∧ bonusSum picks ent x ≤ 3 * picks.count x := by
  induction picks generalizing ent with
  | nil => simp [bonusSum]
  | cons p rest ih =>
    have hb := randomInt_bonus_bounds (ent.headD 0)
    have ihr := ih ent.tail
    by_cases hpx : p = x
    · subst hpx
      simp only [bonusSum, List.count_cons]
      simp only [show (p == p) = true by simp, if_true]
      omega
    · have hpx' : (p == x) = false := by simp [hpx]
      simp only [bonusSum, List.count_cons, hpx']
      simp only [Bool.false_eq_true, if_false]
      omega

theorem bonusSum_of_not_mem (picks : List String) (ent : List Nat) (x : String)
    (h : x ∉ picks) : bonusSum picks ent x = 0 := by
  have hc : picks.count x = 0 := List.count_eq_zero.mpr h
  have := bonusSum_bounds picks ent x
  omega

theorem assignDays_length (m : List (String × Nat)) (i : Nat) (l : List ResultRow) :
    (assignDays m i l).length = l.length := by
  induction l generalizing i <;> simp [assignDays, *]

theorem assignDays_getD (m : List (String × Nat)) (l : List ResultRow) (i j : Nat)
    (h : j < l.length) :
    (assignDays m i l).getD j defaultRow =
      { l.getD j defaultRow with
        days := if i + j < 3 then lookupDays m ((l.getD j defaultRow).candidateId) else 0 } := by
  induction l generalizing i j with
  | nil => simp at h
  | cons r rs ih =>
    cases j with
    | zero => simp [assignDays]
    | succ j =>
      simp only [assignDays, List.getD_cons_succ]
      rw [ih (i + 1) j (by simpa using h)]
      have hidx : i + 1 + j = i + (j + 1) := by omega
      rw [hidx]

theorem assignDays_pairs (m : List (String × Nat)) (i : Nat) (l : List ResultRow) :
    (assignDays m i l).map (fun r => (r.candidateId, r.votes)) =
      l.map (fun r => (r.candidateId, r.votes)) := by
  induction l generalizing i <;> simp [assignDays, *]

theorem insertRow_perm (r : ResultRow) (l : List ResultRow) :
    (insertRow r l).Perm (r :: l) := by
  induction l with
  | nil => simp [insertRow]
  | cons x xs ih =>
    by_cases h : x.votes < r.votes
    · simp [insertRow, h]
    · simp only [insertRow, if_neg h]
      exact (ih.cons x).trans (List.Perm.swap r x xs)

theorem sortGo_perm (l : List ResultRow) :
    ∀ acc, (l.foldl (fun acc r => insertRow r acc) acc).Perm (l ++ acc) := by
  induction l with
  | nil => intro acc; simp
  | cons x xs ih =>
    intro acc
    simp only [List.foldl_cons, List.cons_append]
    exact (ih (insertRow x acc)).trans
      ((List.Perm.append_left xs (insertRow_perm x acc)).trans List.perm_middle)

theorem sortRows_perm (l : List ResultRow) : (sortRows l).Perm l := by
  simpa using sortGo_perm l []

theorem mem_insertRow {a r : ResultRow} {l : List ResultRow} :
    a ∈ insertRow r l ↔ a = r ∨ a ∈ l := by
  rw [(insertRow_perm r l).mem_iff]
  simp

theorem insertRow_sorted {l : List ResultRow} (r : ResultRow)
    (h : l.Pairwise (fun a b => b.votes ≤ a.votes)) :
    (insertRow r l).Pairwise (fun a b => b.votes ≤ a.votes) := by
  induction l with
  | nil => simp [insertRow]
  | cons x xs ih =>
    rw [List.pairwise_cons] at h
    obtain ⟨hx, hxs⟩ := h
    by_cases hlt : x.votes < r.votes
    · simp only [insertRow, if_pos hlt]
      rw [List.pairwise_cons]
      refine ⟨?_, by rw [List.pairwise_cons]; exact ⟨hx, hxs⟩⟩
      intro b hb
      rcases List.mem_cons.mp hb with rfl | hb
      · omega
      · have := hx b hb
        omega
    · simp only [insertRow, if_neg hlt]
      rw [List.pairwise_cons]
      refine ⟨?_, ih hxs⟩
      intro b hb
      rcases mem_insertRow.mp hb with rfl | hb
      · omega
      · exact hx b hb

theorem sortGo_sorted (l : List ResultRow) :
    ∀ acc, acc.Pairwise (fun a b => b.votes ≤ a.votes) →
      (l.foldl (fun acc r => insertRow r acc) acc).Pairwise (fun a b => b.votes ≤ a.votes) := by
  induction l with
  | nil => intro acc h; simpa using h
  | cons x xs ih => intro acc h; simpa using ih _ (insertRow_sorted x h)

theorem sortRows_sorted (l : List ResultRow) :
    (sortRows l).Pairwise (fun a b => b.votes ≤ a.votes) :=
  sortGo_sorted l [] (by simp)

theorem filter_votes_eq_nil {v : Nat} {l : List ResultRow}
    (h : ∀ a ∈ l, a.votes < v) : l.filter (fun r => r.votes == v) = [] := by
  rw [List.filter_eq_nil_iff]
  intro a ha
  have := h a ha
  simp only [beq_iff_eq]
  omega

theorem insertRow_filter (v : Nat) (r : ResultRow) {l : List ResultRow}
    (h : l.Pairwise (fun a b => b.votes ≤ a.votes)) :
    (insertRow r l).filter (fun q => q.votes == v) =
      l.filter (fun q => q.votes == v) ++ (if r.votes == v then [r] else []) := by
  induction l with
  | nil => cases hrv : (r.votes == v) <;> simp [insertRow, hrv]
  | cons x xs ih =>
    rw [List.pairwise_cons] at h
    obtain ⟨hx, hxs⟩ := h
    by_cases hlt : x.votes < r.votes
    · simp only [insertRow, if_pos hlt]
      by_cases hrv : r.votes = v
      · have hnil : (x :: xs).filter (fun q => q.votes == v) = [] := by
          apply filter_votes_eq_nil
          intro a ha
          rcases List.mem_cons.mp ha with rfl | ha
          · omega
          · have := hx a ha
            omega
        have hrv' : (r.votes == v) = true := by simp [hrv]
        simp [List.filter_cons, hrv', hnil]
      · have hrv' : (r.votes == v) = false := by simp [hrv]
        simp [List.filter_cons, hrv']
    · simp only [insertRow, if_neg hlt]
      rw [List.filter_cons, List.filter_cons]
      cases hxv : (x.votes == v) <;> simp [hxv, ih hxs]

theorem sortGo_filter (v : Nat) (l : List ResultRow) :
    ∀ acc, acc.Pairwise (fun a b => b.votes ≤ a.votes) →
      (l.foldl (fun acc r => insertRow r acc) acc).filter (fun q => q.votes == v) =
        acc.filter (fun q => q.votes == v) ++ l.filter (fun q => q.votes == v) := by
  induction l with
  | nil => intro acc _; simp
  | cons x xs ih =>
    intro acc h
    simp only [List.foldl_cons]
    rw [ih _ (insertRow_sorted x h), insertRow_filter v x h, List.filter_cons]
    cases hxv : (x.votes == v) <;> simp [hxv]

theorem sortRows_filter (v : Nat) (l : List ResultRow) :
    (sortRows l).filter (fun q => q.votes == v) = l.filter (fun q => q.votes == v) := by
  simpa using sortGo_filter v l [] (by simp)

theorem bumpCount_keys (m : List (String × Nat)) (cid : String) :
    (bumpCount m cid).map Prod.fst =
      if (m.map Prod.fst).contains cid then m.map Prod.fst
      else m.map Prod.fst ++ [cid] := by
  induction m with
  | nil => simp [bumpCount]
  | cons q qs ih =>
    by_cases h : q.1 = cid
    · subst h
      simp [bumpCount]
    · have h1 : (q.1 == cid) = false := by simp [h]
      have h2 : cid ≠ q.1 := Ne.symm h
      by_cases hc : cid ∈ qs.map Prod.fst <;>
        simp [bumpCount, h1, h2, ih, hc]

theorem bumpCount_sum (m : List (String × Nat)) (cid : String) :
    ((bumpCount m cid).map Prod.snd).sum = (m.map Prod.snd).sum + 1 := by
  induction m with
  | nil => simp [bumpCount]
  | cons q qs ih =>
    by_cases h : q.1 = cid
    · subst h
      simp [bumpCount]
      omega
    · have h1 : (q.1 == cid) = false := by simp [h]
      simp [bumpCount, h1, ih]
      omega

theorem pickFold_keys (picks : List String) (m : List (String × Nat)) :
    ((picks.foldl bumpCount m).map Prod.fst) =
      picks.foldl (fun acc cid => if acc.contains cid then acc else acc ++ [cid])
        (m.map Prod.fst) := by
  induction picks generalizing m with
  | nil => simp
  | cons p ps ih =>
    simp only [List.foldl_cons]
    rw [ih, bumpCount_keys]

theorem pickFold_sum (picks : List String) (m : List (String × Nat)) :
    ((picks.foldl bumpCount m).map Prod.snd).sum = (m.map Prod.snd).sum + picks.length := by
  induction picks generalizing m with
  | nil => simp
  | cons p ps ih =>
    simp only [List.foldl_cons, ih, bumpCount_sum, List.length_cons]
    omega

theorem tally_keys (uv : List Vote) :
    (tally uv).map Prod.fst = firstSeenOrder uv := by
  suffices h : ∀ m : List (String × Nat),
      ((uv.foldl (fun acc v => v.picks.foldl bumpCount acc) m).map Prod.fst) =
      uv.foldl
        (fun acc v =>
          v.picks.foldl (fun acc cid => if acc.contains cid then acc else acc ++ [cid]) acc)
        (m.map Prod.fst) by
    simpa [tally, firstSeenOrder] using h []
  induction uv with
  | nil => intro m; simp
  | cons v vs ih =>
    intro m
    simp only [List.foldl_cons]
    rw [ih, pickFold_keys]

theorem tally_sum (uv : List Vote) :
    ((tally uv).map Prod.snd).sum = (uv.map (fun v => v.picks.length)).sum := by
  suffices h : ∀ m : List (String × Nat),
      ((uv.foldl (fun acc v => v.picks.foldl bumpCount acc) m).map Prod.snd).sum =
      (m.map Prod.snd).sum + (uv.map (fun v => v.picks.length)).sum by
    simpa [tally] using h []
  induction uv with
  | nil => intro m; simp
  | cons v vs ih =>
    intro m
    simp only [List.foldl_cons, List.map_cons, List.sum_cons]
    rw [ih, pickFold_sum]
    omega

theorem insertByNum_perm (p : String × Nat) (l : List (String × Nat)) :
    (insertByNum p l).Perm (p :: l) := by
  induction l with
  | nil => simp [insertByNum]
  | cons q qs ih =>
    by_cases h : keyNum p.1 < keyNum q.1
    · simp [insertByNum, h]
    · simp only [insertByNum, if_neg h]
      exact (ih.cons q).trans (List.Perm.swap p q qs)

theorem sortNumericKeys_perm (l : List (String × Nat)) : (sortNumericKeys l).Perm l := by
  suffices h : ∀ acc, (l.foldl (fun acc p => insertByNum p acc) acc).Perm (l ++ acc) by
    simpa [sortNumericKeys] using h []
  induction l with
  | nil => intro acc; simp
  | cons x xs ih =>
    intro acc
    simp only [List.foldl_cons, List.cons_append]
    exact (ih (insertByNum x acc)).trans
      ((List.Perm.append_left xs (insertByNum_perm x acc)).trans List.perm_middle)

theorem objectKeys_perm (l : List (String × Nat)) : (objectKeys l).Perm l := by
  unfold objectKeys
  exact ((sortNumericKeys_perm _).append_right _).trans (List.filter_append_perm _ l)

theorem objectKeys_id {l : List (String × Nat)}
    (h : ∀ p ∈ l, isArrayIndexKey p.1 = false) : objectKeys l = l := by
  unfold objectKeys
  have h1 : l.filter (fun p => isArrayIndexKey p.1) = [] := by
    rw [List.filter_eq_nil_iff]
    intro a ha
    simp [h a ha]
  have h2 : l.filter (fun p => !isArrayIndexKey p.1) = l := by
    rw [List.filter_eq_self]
    intro a ha
    simp [h a ha]
  simp [h1, h2, sortNumericKeys]

theorem mem_addToSet {s : List String} {y x : String} :
    x ∈ addToSet s y ↔ x ∈ s ∨ x = y := by
  unfold addToSet
  by_cases hc : y ∈ s
  · rw [if_pos (by simpa using hc)]
    constructor
    · exact Or.inl
    · rintro (h | rfl)
      · exact h
      · exact hc
  · rw [if_neg (by simpa using hc)]
    simp

theorem addToSet_nodup {s : List String} (y : String) (h : s.Nodup) :
    (addToSet s y).Nodup := by
  unfold addToSet
  by_cases hc : y ∈ s
  · rw [if_pos (by simpa using hc)]
    exact h
  · rw [if_neg (by simpa using hc)]
    simpa [List.nodup_append] using ⟨h, hc⟩

theorem mem_votersFor {uv : List Vote} {cid x : String} :
    x ∈ votersFor uv cid ↔ ∃ v, v ∈ uv ∧ v.voterId = x ∧ v.picks.contains cid = true := by
  suffices h : ∀ s : List String, x ∈ uv.foldl
      (fun s v => if v.picks.contains cid then addToSet s v.voterId else s) s ↔
      x ∈ s ∨ ∃ v, v ∈ uv ∧ v.voterId = x ∧ v.picks.contains cid = true by
    simpa [votersFor] using h []
  induction uv with
  | nil => intro s; simp
  | cons v vs ih =>
    intro s
    simp only [List.foldl_cons]
    by_cases hv : v.picks.contains cid = true
    · rw [if_pos hv, ih, mem_addToSet]
      constructor
      · rintro (⟨h | rfl⟩ | ⟨w, hw, rfl, hwc⟩)
        · exact Or.inl h
        · exact Or.inr ⟨v, List.mem_cons_self v vs, rfl, hv⟩
        · exact Or.inr ⟨w, List.mem_cons_of_mem _ hw, rfl, hwc⟩
      · rintro (h | ⟨w, hw, rfl, hwc⟩)
        · exact Or.inl (Or.inl h)
        · rcases List.mem_cons.mp hw with rfl | hw
          · exact Or.inl (Or.inr rfl)
          · exact Or.inr ⟨w, hw, rfl, hwc⟩
    · rw [if_neg hv, ih]
      constructor
      · rintro (h | ⟨w, hw, rfl, hwc⟩)
        · exact Or.inl h
        · exact Or.inr ⟨w, List.mem_cons_of_mem _ hw, rfl, hwc⟩
      · rintro (h | ⟨w, hw, rfl, hwc⟩)
        · exact Or.inl h
        · rcases List.mem_cons.mp hw with rfl | hw
          · exact absurd hwc hv
          · exact Or.inr ⟨w, hw, rfl, hwc⟩

theorem votersFor_nodup (uv : List Vote) (cid : String) : (votersFor uv cid).Nodup := by
  suffices h : ∀ s : List String, s.Nodup → (uv.foldl
      (fun s v => if v.picks.contains cid then addToSet s v.voterId else s) s).Nodup by
    exact h [] (by simp)
  induction uv with
  | nil => intro s hs; simpa using hs
  | cons v vs ih =>
    intro s hs
    simp only [List.foldl_cons]
    by_cases hv : v.picks.contains cid = true
    · rw [if_pos hv]
      exact ih _ (addToSet_nodup _ hs)
    · rw [if_neg hv]
      exact ih _ hs

theorem baseDaysFor_eq_spec (u : List Vote) (g : Option String) (cid : String) :
    baseDaysFor u g cid =
      specBaseDays (votersFor u cid).length (gerenteAmong g (votersFor u cid)) := by
  simp only [baseDaysFor, specBaseDays]
  cases hG : gerenteAmong g (votersFor u cid) <;> simp [hG] <;> split_ifs <;> omega

theorem computeCore_pairs (u : List Vote) (g : Option String) (b : Bool) (ent : List Nat) :
    (computeCore u g b ent).map (fun r => (r.candidateId, r.votes)) =
      (sortRows (rowsOfCounts (tally u))).map (fun r => (r.candidateId, r.votes)) := by
  simp only [computeCore]
  cases hg : resolveGerente g with
  | none => simp [assignDays_pairs]
  | some gid =>
    cases b
    · simp [assignDays_pairs]
    · cases hf : u.find? (fun v => v.voterId == gid) <;> simp [hf, assignDays_pairs]

/-- With the bonus disabled, `computeCore` is the base-day assignment over
the sorted rows. -/
theorem computeCore_false_eq (u : List Vote) (g : Option String) (ent : List Nat) :
    computeCore u g false ent =
      assignDays
        (baseDaysMap u (resolveGerente g)
          ((sortRows (rowsOfCounts (tally u))).take 3))
        0 (sortRows (rowsOfCounts (tally u))) := by
  cases hg : resolveGerente g <;> simp [computeCore, hg]

/-- With the bonus enabled, a resolved Executive and the Executive's ballot
present, `computeCore` applies the bonus loop on top of the base map. -/
theorem computeCore_bonus_eq (u : List Vote) (g : Option String) (ent : List Nat)
    (gid : String) (gv : Vote) (hg : resolveGerente g = some gid)
    (hf : u.find? (fun v => v.voterId == gid) = some gv) :
    computeCore u g true ent =
      assignDays
        (applyBonus
          (baseDaysMap u (some gid) ((sortRows (rowsOfCounts (tally u))).take 3))
          gv.picks ent)
        0 (sortRows (rowsOfCounts (tally u))) := by
  simp [computeCore, hg, hf]

theorem getD_mem_take {α : Type} (l : List α) (d : α) (n j : Nat)
    (hj : j < l.length) (hn : j < n) : l.getD j d ∈ l.take n := by
  induction l generalizing j n with
  | nil => simp at hj
  | cons x xs ih =>
    cases n with
    | zero => omega
    | succ n =>
      cases j with
      | zero => simp
      | succ j =>
        simp only [List.getD_cons_succ, List.take_succ_cons]
        exact List.mem_cons_of_mem _ (ih n j (by simpa using hj) (by omega))

theorem filtermap_escape (v : Nat) (l : List ResultRow) :
    (l.filter (fun r => r.votes == v)).map (fun r => r.candidateId) =
      ((l.map (fun r => (r.candidateId, r.votes))).filter (fun p => p.2 == v)).map Prod.fst := by
  induction l with
  | nil => simp
  | cons x xs ih => cases hq : (x.votes == v) <;> simp [List.filter_cons, hq, ih]

theorem mapRow_filter (v : Nat) (l : List (String × Nat)) :
    (((l.map (fun p => ({ candidateId := p.1, votes := p.2, days := 0 } : ResultRow))).filter
        (fun r => r.votes == v)).map (fun r => r.candidateId)) =
      (l.filter (fun p => p.2 == v)).map Prod.fst := by
  induction l with
  | nil => simp
  | cons p ps ih => cases hq : (p.2 == v) <;> simp [List.filter_cons, hq, ih]

theorem removeIdx_length (l : List Vote) (i : Nat) (h : i < l.length) :
    (removeIdx l i).length + 1 = l.length := by
  induction l generalizing i with
  | nil => simp at h
  | cons x xs ih =>
    cases i with
    | zero => simp [removeIdx]
    | succ i =>
      simp only [removeIdx, List.length_cons]
      rw [← ih i (by simpa using h)]

theorem buildDateInfo_error (days : List String)
    (h : days.any (fun s => utcDayOfWeek s == 1) = true) :
    buildDateInfo days = .error "No se permiten lunes" := by
  induction days with
  | nil => simp at h
  | cons d rest ih =>
    simp only [List.any_cons, Bool.or_eq_true] at h
    by_cases hd : (utcDayOfWeek d == 1) = true
    · simp [buildDateInfo, hd]
    · have hr : rest.any (fun s => utcDayOfWeek s == 1) = true := by
        rcases h with h | h
        · exact absurd h hd
        · exact h
      simp [buildDateInfo, hd, ih hr]

theorem buildDateInfo_ok (days : List String)
    (h : days.any (fun s => utcDayOfWeek s == 1) = false) :
    buildDateInfo days = .ok (days.map (fun s => epochDayOfStr s * MS_PER_DAY)) := by
  induction days with
  | nil => simp [buildDateInfo]
  | cons d rest ih =>
    rw [List.any_cons] at h
    have h1 : (utcDayOfWeek d == 1) = false := by
      cases hx : (utcDayOfWeek d == 1) <;> simp [hx] at h ⊢
    have h2 : rest.any (fun s => utcDayOfWeek s == 1) = false := by
      cases hx : rest.any (fun s => utcDayOfWeek s == 1) <;> simp [hx, h1] at h ⊢
    simp [buildDateInfo, h1, ih h2]

theorem insertTs_map_mul (t : Int) (l : List Int) :
    insertTs (t * MS_PER_DAY) (l.map (fun x => x * MS_PER_DAY)) =
      (insertTs t l).map (fun x => x * MS_PER_DAY) := by
  induction l with
  | nil => simp [insertTs]
  | cons x xs ih =>
    have hlt : t * MS_PER_DAY < x * MS_PER_DAY ↔ t < x :=
      mul_lt_mul_right (by norm_num [MS_PER_DAY])
    by_cases h : t < x
    · simp only [List.map_cons, insertTs, if_pos (hlt.mpr h), if_pos h]
    · simp only [List.map_cons, insertTs, if_neg (fun hc => h (hlt.mp hc)), if_neg h]
      rw [ih]

theorem sortTs_map_mul (l : List Int) :
    sortTs (l.map (fun x => x * MS_PER_DAY)) = (sortTs l).map (fun x => x * MS_PER_DAY) := by
  suffices h : ∀ acc : List Int,
      (l.map (fun x => x * MS_PER_DAY)).foldl (fun acc t => insertTs t acc)
        (acc.map (fun x => x * MS_PER_DAY)) =
      (l.foldl (fun acc t => insertTs t acc) acc).map (fun x => x * MS_PER_DAY) by
    simpa [sortTs] using h []
  induction l with
  | nil => intro acc; simp
  | cons x xs ih =>
    intro acc
    simp only [List.map_cons, List.foldl_cons]
    rw [insertTs_map_mul, ih]

theorem hasConsecutive_map (l : List Int) :
    hasConsecutive (l.map (fun x => x * MS_PER_DAY)) = hasAdjacentDiffOne l := by
  induction l with
  | nil => rfl
  | cons a tl ih =>
    cases tl with
    | nil => rfl
    | cons b rest =>
      simp only [List.map_cons, hasConsecutive, hasAdjacentDiffOne]
      rw [show (b * MS_PER_DAY - a * MS_PER_DAY) = (b - a) * MS_PER_DAY from (sub_mul b a _).symm]
      have key : ((b - a) * MS_PER_DAY == MS_PER_DAY) = ((b - a) == 1) := by
        rw [Bool.eq_iff_iff]
        simp only [beq_iff_eq]
        constructor
        · intro h
          have h2 : (b - a) * MS_PER_DAY = 1 * MS_PER_DAY := by rw [h, one_mul]
          exact mul_right_cancel₀ (by norm_num [MS_PER_DAY]) h2
        · intro h
          rw [h, one_mul]
      rw [key]
      have ih2 : hasConsecutive (List.map (fun x => x * MS_PER_DAY) (b :: rest)) =
          hasAdjacentDiffOne (b :: rest) := ih
      rw [List.map_cons] at ih2
      rw [ih2]

theorem htmlEntity_of_not_special {c : Char} (h : isHtmlSpecial c = false) :
    htmlEntity c = String.singleton c := by
  simp only [isHtmlSpecial, Bool.or_eq_false_iff] at h
  obtain ⟨⟨⟨⟨h1, h2⟩, h3⟩, h4⟩, h5⟩ := h
  simp [htmlEntity, h1, h2, h3, h4, h5]

theorem sanitizeChars_id {l : List Char} (h : ∀ c ∈ l, isHtmlSpecial c = false) :
    sanitizeChars l = l := by
  induction l with
  | nil => rfl
  | cons c cs ih =>
    rw [sanitizeChars, htmlEntity_of_not_special (h c (List.mem_cons_self c cs)),
      ih (fun x hx => h x (List.mem_cons_of_mem _ hx))]
    rfl

theorem sanitizeText_id (s : String) (h : ∀ c ∈ s.data, isHtmlSpecial c = false) :
    sanitizeText s = s := by
  unfold sanitizeText
  rw [sanitizeChars_id h]

/-! ### Claim C9 -/

/-- C9: with `discardOneRandomVote = false` and `enableGerenteBonus = false`,
`computeResults` is deterministic: the output does not depend on the drawn
entropy at all, and `discardedVoterId` is unset. -/
theorem C9_deterministic_when_disabled (n : List Nomination) (votes : List Vote)
    (users : List User) (ent1 ent2 : List Nat) :
    computeResults n votes users ⟨false, false⟩ ent1 =
      computeResults n votes users ⟨false, false⟩ ent2 ∧
    (computeResults n votes users ⟨false, false⟩ ent1).discardedVoterId = none := by
  constructor
  · simp only [computeResults, usedVotesOf, entAfterDiscard, discardedOf]
    simp only [Bool.false_and, Bool.false_eq_true, if_false, ite_false]
    rw [computeCore_no_bonus votes (findGerenteId users) ent1 ent2]
  · simp [computeResults, discardedOf]

/-! ### Claim C3 -/

/-- C3: with `discardOneRandomVote = false`, the vote tallies over all
returned rows of `computeResults` sum to the total number of pick
occurrences across all ballots (each duplicate occurrence counts). -/
theorem C3_vote_conservation (n : List Nomination) (votes : List Vote) (users : List User)
    (b : Bool) (ent : List Nat) :
    ((computeResults n votes users ⟨false, b⟩ ent).rows.map (fun r => r.votes)).sum =
      (votes.map (fun v => v.picks.length)).sum := by
  have h1 : (computeResults n votes users ⟨false, b⟩ ent).rows =
      computeCore votes (findGerenteId users) b ent := by
    simp [computeResults, usedVotesOf, entAfterDiscard]
  rw [h1]
  have h2 : (computeCore votes (findGerenteId users) b ent).map (fun r => r.votes) =
      (sortRows (rowsOfCounts (tally votes))).map (fun r => r.votes) := by
    have hp := congrArg (List.map Prod.snd) (computeCore_pairs votes (findGerenteId users) b ent)
    simpa [List.map_map, Function.comp] using hp
  rw [h2, ((sortRows_perm (rowsOfCounts (tally votes))).map (fun r => r.votes)).sum_eq]
  have h4 : (rowsOfCounts (tally votes)).map (fun r => r.votes) =
      (objectKeys (tally votes)).map Prod.snd := by
    simp [rowsOfCounts, List.map_map, Function.comp]
  rw [h4, ((objectKeys_perm (tally votes)).map Prod.snd).sum_eq, tally_sum]

/-! ### Claim C4 -/

/-- C4 (amended): the returned rows are sorted by votes descending; within
each vote count the candidate order equals the `Object.keys` enumeration
order of the tally map; the tally map's keys are in first-encounter order;
and whenever no candidate id is an array-index-like string, the
enumeration is exactly the first-encounter order (so ties then appear in
first-encounter order). -/
theorem C4_amended (n : List Nomination) (votes : List Vote) (users : List User)
    (options : Options) (ent : List Nat) :
    ((computeResults n votes users options ent).rows.Pairwise fun a b => b.votes ≤ a.votes) ∧
    (∀ v : Nat,
      (((computeResults n votes users options ent).rows.filter
          (fun r => r.votes == v)).map (fun r => r.candidateId)) =
        (((objectKeys (tally (usedVotesOf votes options ent))).filter
          (fun p => p.2 == v)).map Prod.fst)) ∧
    ((tally (usedVotesOf votes options ent)).map Prod.fst =
      firstSeenOrder (usedVotesOf votes options ent)) ∧
    ((∀ cid ∈ (tally (usedVotesOf votes options ent)).map Prod.fst,
        isArrayIndexKey cid = false) →
      objectKeys (tally (usedVotesOf votes options ent)) =
        tally (usedVotesOf votes options ent)) := by
  have hrows : (computeResults n votes users options ent).rows =
      computeCore (usedVotesOf votes options ent) (findGerenteId users)
        options.enableGerenteBonus (entAfterDiscard votes options ent) := rfl
  have hpair := computeCore_pairs (usedVotesOf votes options ent) (findGerenteId users)
    options.enableGerenteBonus (entAfterDiscard votes options ent)
  refine ⟨?_, ?_, tally_keys _, ?_⟩
  · rw [hrows]
    have hs := sortRows_sorted (rowsOfCounts (tally (usedVotesOf votes options ent)))
    have hs2 : ((sortRows (rowsOfCounts (tally (usedVotesOf votes options ent)))).map
        (fun r => (r.candidateId, r.votes))).Pairwise (fun a b => b.2 ≤ a.2) := by
      rw [List.pairwise_map]
      exact hs
    rw [← hpair, List.pairwise_map] at hs2
    exact hs2
  · intro v
    rw [hrows, filtermap_escape, hpair, ← filtermap_escape, sortRows_filter, rowsOfCounts,
      mapRow_filter]
  · intro h
    apply objectKeys_id
    intro p hp
    exact h p.1 (List.mem_map_of_mem _ hp)

/-! ### Claim C5 -/

/-- C5: with the bonus disabled, each of the first three rows carries the
day award given by the distinct-voter/Executive table (`specBaseDays`)
applied to the distinct non-discarded voters whose ballot includes the
candidate, and every row beyond the first three carries 0 days;
`votersFor` is precisely the duplicate-free list of used voters whose
ballot contains the candidate. -/
theorem C5_base_day_rule (n : List Nomination) (votes : List Vote) (users : List User)
    (d : Bool) (ent : List Nat) (j : Nat)
    (hj : j < (computeResults n votes users ⟨d, false⟩ ent).rows.length) :
    (((computeResults n votes users ⟨d, false⟩ ent).rows.getD j defaultRow).days =
      if j < 3 then
        specBaseDays
          (votersFor (usedVotesOf votes ⟨d, false⟩ ent)
            (((computeResults n votes users ⟨d, false⟩ ent).rows.getD j
              defaultRow).candidateId)).length
          (gerenteAmong (resolveGerente (findGerenteId users))
            (votersFor (usedVotesOf votes ⟨d, false⟩ ent)
              (((computeResults n votes users ⟨d, false⟩ ent).rows.getD j
                defaultRow).candidateId)))
      else 0) ∧
    (∀ cid : String, (votersFor (usedVotesOf votes ⟨d, false⟩ ent) cid).Nodup) ∧
    (∀ cid x : String, x ∈ votersFor (usedVotesOf votes ⟨d, false⟩ ent) cid ↔
      ∃ v, v ∈ usedVotesOf votes ⟨d, false⟩ ent ∧ v.voterId = x ∧
        v.picks.contains cid = true) := by
  refine ⟨?_, fun cid => votersFor_nodup _ cid, fun cid x => mem_votersFor⟩
  have hrows : (computeResults n votes users ⟨d, false⟩ ent).rows =
      assignDays
        (baseDaysMap (usedVotesOf votes ⟨d, false⟩ ent)
          (resolveGerente (findGerenteId users))
          ((sortRows (rowsOfCounts (tally (usedVotesOf votes ⟨d, false⟩ ent)))).take 3))
        0 (sortRows (rowsOfCounts (tally (usedVotesOf votes ⟨d, false⟩ ent)))) :=
    computeCore_false_eq _ _ _
  rw [hrows] at hj ⊢
  rw [assignDays_length] at hj
  rw [assignDays_getD _ _ _ _ hj]
  simp only [Nat.zero_add]
  by_cases hj3 : j < 3
  · rw [if_pos hj3, if_pos hj3]
    unfold baseDaysMap
    rw [lookupDays_baseFold]
    have hmem := getD_mem_take
      (sortRows (rowsOfCounts (tally (usedVotesOf votes ⟨d, false⟩ ent)))) defaultRow 3 j hj hj3
    have hany : (((sortRows (rowsOfCounts (tally (usedVotesOf votes ⟨d, false⟩ ent)))).take 3).any
        (fun r => r.candidateId ==
          ((sortRows (rowsOfCounts (tally (usedVotesOf votes ⟨d, false⟩ ent)))).getD j
            defaultRow).candidateId)) = true :=
      List.any_eq_true.mpr ⟨_, hmem, by simp⟩
    rw [if_pos hany, baseDaysFor_eq_spec]
  · rw [if_neg hj3, if_neg hj3]

/-! ### Claim C6 -/

/-- C6: with `discardOneRandomVote = true` and a non-empty ballot list,
exactly one ballot — the one at the randomly drawn index — is excluded
from all tallying and day-award counting (the rows equal those computed
without discard from the list with that one ballot removed, which is one
shorter), and `discardedVoterId` is that ballot's voter identity; with an
empty ballot list nothing is excluded and `discardedVoterId` is unset. -/
theorem C6_discard (n : List Nomination) (votes : List Vote) (users : List User)
    (b : Bool) (ent : List Nat) :
    (votes = [] →
      (computeResults n votes users ⟨true, b⟩ ent).discardedVoterId = none ∧
      (computeResults n votes users ⟨true, b⟩ ent).rows =
        (computeResults n votes users ⟨false, b⟩ ent).rows) ∧
    (votes ≠ [] →
      ∃ idx : Nat, idx < votes.length ∧
        (computeResults n votes users ⟨true, b⟩ ent).discardedVoterId =
          some ((votes.getD idx defaultVote).voterId) ∧
        (computeResults n votes users ⟨true, b⟩ ent).rows =
          (computeResults n (removeIdx votes idx) users ⟨false, b⟩ ent.tail).rows ∧
        (removeIdx votes idx).length + 1 = votes.length) := by
  constructor
  · rintro rfl
    constructor
    · simp [computeResults, discardedOf]
    · simp [computeResults, usedVotesOf, entAfterDiscard]
  · intro hne
    have hemp : votes.isEmpty = false := by
      cases votes
      · exact absurd rfl hne
      · rfl
    have hlen : 0 < votes.length := by
      cases votes
      · exact absurd rfl hne
      · simp
    have hidx : randomInt (ent.headD 0) 0 (votes.length - 1) < votes.length := by
      show 0 + (ent.headD 0) % (votes.length - 1 - 0 + 1) < votes.length
      have h1 : votes.length - 1 - 0 + 1 = votes.length := by omega
      rw [h1]
      simpa using Nat.mod_lt _ hlen
    refine ⟨randomInt (ent.headD 0) 0 (votes.length - 1), hidx, ?_, ?_, ?_⟩
    · simp [computeResults, discardedOf, hemp]
    · simp [computeResults, usedVotesOf, entAfterDiscard, hemp]
    · exact removeIdx_length votes _ hidx

/-! ### Claim C1 -/

/-- C1 (amended): with the bonus enabled, an Executive found and the
Executive's ballot present among the (non-discarded) ballots, the bonus
loop adds to each candidate's day award a total of one `randomInt(1, 3)`
draw per occurrence on the Executive's ballot — in `[occurrences,
3·occurrences]`, hence nonzero for any candidate on the ballot, and zero
for candidates off the ballot.  But the returned rows expose a day award
only for the first three rows: each top-three row's final days are its
table base award plus its bonus total, while every row at index ≥ 3 has
final day award 0 even if its candidate is on the Executive's ballot. -/
theorem C1_amended (n : List Nomination) (votes : List Vote) (users : List User)
    (gid : String) (gv : Vote) (ent : List Nat)
    (hg : resolveGerente (findGerenteId users) = some gid)
    (hf : votes.find? (fun v => v.voterId == gid) = some gv) :
    (∀ j : Nat, 3 ≤ j →
      (((computeResults n votes users ⟨false, true⟩ ent).rows.getD j defaultRow).days = 0)) ∧
    (∀ j : Nat, j < 3 →
      j < (computeResults n votes users ⟨false, true⟩ ent).rows.length →
      (((computeResults n votes users ⟨false, true⟩ ent).rows.getD j defaultRow).days =
        specBaseDays
          (votersFor votes
            (((computeResults n votes users ⟨false, true⟩ ent).rows.getD j
              defaultRow).candidateId)).length
          (gerenteAmong (some gid)
            (votersFor votes
              (((computeResults n votes users ⟨false, true⟩ ent).rows.getD j
                defaultRow).candidateId))) +
        bonusSum gv.picks ent
          (((computeResults n votes users ⟨false, true⟩ ent).rows.getD j
            defaultRow).candidateId))) ∧
    (∀ cid : String, cid ∈ gv.picks →
      1 ≤ bonusSum gv.picks ent cid ∧
      gv.picks.count cid ≤ bonusSum gv.picks ent cid ∧
      bonusSum gv.picks ent cid ≤ 3 * gv.picks.count cid) ∧
    (∀ cid : String, cid ∉ gv.picks → bonusSum gv.picks ent cid = 0) := by
  have hrows : (computeResults n votes users ⟨false, true⟩ ent).rows =
      assignDays
        (applyBonus
          (baseDaysMap votes (some gid) ((sortRows (rowsOfCounts (tally votes))).take 3))
          gv.picks ent)
        0 (sortRows (rowsOfCounts (tally votes))) := by
    have h0 : (computeResults n votes users ⟨false, true⟩ ent).rows =
        computeCore votes (findGerenteId users) true ent := by
      simp [computeResults, usedVotesOf, entAfterDiscard]
    rw [h0]
    exact computeCore_bonus_eq votes (findGerenteId users) ent gid gv hg hf
  refine ⟨?_, ?_, ?_, fun cid h => bonusSum_of_not_mem _ _ _ h⟩
  · intro j hj3
    by_cases hj : j < (computeResults n votes users ⟨false, true⟩ ent).rows.length
    · rw [hrows] at hj ⊢
      rw [assignDays_length] at hj
      rw [assignDays_getD _ _ _ _ hj]
      simp only [Nat.zero_add]
      rw [if_neg (by omega)]
    · rw [List.getD_eq_default _ _ (by omega)]
      rfl
  · intro j hj3 hj
    rw [hrows] at hj ⊢
    rw [assignDays_length] at hj
    rw [assignDays_getD _ _ _ _ hj]
    simp only [Nat.zero_add]
    rw [if_pos hj3, lookupDays_applyBonus]
    unfold baseDaysMap
    rw [lookupDays_baseFold]
    have hmem := getD_mem_take (sortRows (rowsOfCounts (tally votes))) defaultRow 3 j hj hj3
    have hany : (((sortRows (rowsOfCounts (tally votes))).take 3).any
        (fun r => r.candidateId ==
          ((sortRows (rowsOfCounts (tally votes))).getD j defaultRow).candidateId)) = true :=
      List.any_eq_true.mpr ⟨_, hmem, by simp⟩
    rw [if_pos hany, baseDaysFor_eq_spec]
  · intro cid hmem
    have hcnt : gv.picks.count cid ≠ 0 := fun h0 => (List.count_eq_zero.mp h0) hmem
    have hb := bonusSum_bounds gv.picks ent cid
    exact ⟨by omega, hb.1, hb.2⟩

/-- C1 (witness for the amended claim): at the concrete input, the
hypotheses hold and the fourth row's day award is 0. -/
theorem C1_amended_witness :
    resolveGerente (findGerenteId usersG) = some "g" ∧
    votesC1.find? (fun v => v.voterId == "g") = some { voterId := "g", picks := ["d"] } ∧
    ((computeResults [] votesC1 usersG ⟨false, true⟩ [0]).rows.getD 3 defaultRow).days = 0 :=
  ⟨rfl, rfl,
    (C1_amended [] votesC1 usersG "g" { voterId := "g", picks := ["d"] } [0] rfl rfl).1 3
      (Nat.le_refl 3)⟩

/-! ### Claim C2 -/

/-- C2 (amended): `findGerenteId` returns the first roster member, in
roster order, matching either the role `"Gerente"` or the title `"CIO"`;
positional order decides between the two conditions, so the first matching
member wins regardless of which condition it satisfies. -/
theorem C2_amended (pre post : List User) (u : User)
    (hpre : ∀ w ∈ pre, w.role ≠ Role.Gerente ∧ w.title ≠ "CIO")
    (hu : u.role = Role.Gerente ∨ u.title = "CIO") :
    findGerenteId (pre ++ u :: post) = some u.id := by
  induction pre with
  | nil =>
    have hcond : (decide (u.role = Role.Gerente) || u.title == "CIO") = true := by
      rcases hu with h | h <;> simp [h]
    simp only [List.nil_append, findGerenteId]
    rw [@List.find?_cons_of_pos User
      (fun u => decide (u.role = Role.Gerente) || u.title == "CIO") u post hcond]
    rfl
  | cons w ws ih =>
    have hw := hpre w (List.mem_cons_self w ws)
    have hcond : ¬((decide (w.role = Role.Gerente) || w.title == "CIO") = true) := by
      simp [hw.1, hw.2]
    simp only [List.cons_append, findGerenteId]
    rw [@List.find?_cons_of_neg User
      (fun u => decide (u.role = Role.Gerente) || u.title == "CIO") w (ws ++ u :: post) hcond]
    simpa [findGerenteId] using ih (fun x hx => hpre x (List.mem_cons_of_mem _ hx))

/-- C2 (witness for the amended claim): a non-matching prefix followed by a
role-matching Executive yields that Executive's id. -/
theorem C2_amended_witness :
    (∀ w ∈ preC2, w.role ≠ Role.Gerente ∧ w.title ≠ "CIO") ∧
    findGerenteId (preC2 ++ gerenteC2 :: []) = some "g2" :=
  ⟨by decide, C2_amended preC2 [] gerenteC2 (by decide) (Or.inl rfl)⟩

/-- C1 (counterexample): with the bonus enabled, an Executive `g` present
and voting, candidate `d` is on the Executive's ballot and is ranked
fourth; the claim asserts that `d`'s final day award in the returned rows
is nonzero, but the returned fourth row is `⟨"d", 1, 0⟩`: the final row map
forces `days = 0` for every row beyond the first three. -/
theorem C1_counterexample :
    findGerenteId usersG = some "g" ∧
    (votesC1.getD 1 defaultVote).voterId = "g" ∧
    "d" ∈ (votesC1.getD 1 defaultVote).picks ∧
    (computeResults [] votesC1 usersG ⟨false, true⟩ [0]).rows =
      [⟨"ca", 1, 0⟩, ⟨"cb", 1, 0⟩, ⟨"cc", 1, 0⟩, ⟨"d", 1, 0⟩] := by
  refine ⟨rfl, rfl, ?_, by decide⟩
  simp [votesC1, defaultVote]

/-- C2 (counterexample): in `usersC2` the first member matches only by
title (`CIO`) and the second member matches by role (`Gerente`); the claim
asserts the role-matching member's id (`"b"`) is used, but `findGerenteId`
returns the earlier title-only match `"a"`. -/
theorem C2_counterexample :
    (usersC2.getD 0 defaultUser).role ≠ Role.Gerente ∧
    (usersC2.getD 0 defaultUser).title = "CIO" ∧
    (usersC2.getD 1 defaultUser).role = Role.Gerente ∧
    findGerenteId usersC2 = some "a" ∧
    some "a" ≠ some ((usersC2.getD 1 defaultUser).id) := by
  refine ⟨by decide, rfl, rfl, by decide, by decide⟩

/-- C4 (counterexample): both candidates of `votesC4` are tied at one vote
and `"b"` is first encountered before `"1"`, yet the returned rows list
`"1"` first: `Object.keys` enumerates the array-index-like key `"1"`
before the insertion-ordered key `"b"`. -/
theorem C4_counterexample :
    (computeResults [] votesC4 [] ⟨false, false⟩ []).rows =
      [⟨"1", 1, 0⟩, ⟨"b", 1, 0⟩] ∧
    firstSeenOrder votesC4 = ["b", "1"] := by
  constructor <;> decide

/-- C7 (counterexample): the validator rejects the empty selection and a
Monday with the source's Spanish reason strings, not the English reason
strings asserted by the claim. -/
theorem C7_counterexample :
    isValidSchedule [] = ⟨false, some "Selecciona al menos un día"⟩ ∧
    isValidSchedule ["2024-06-17"] = ⟨false, some "No se permiten lunes"⟩ ∧
    ("Selecciona al menos un día" : String) ≠ "select at least one date" ∧
    ("No se permiten lunes" : String) ≠ "Mondays are not allowed" := by
  refine ⟨rfl, by decide, by decide, by decide⟩

/-- C8 (counterexample): the formatter HTML-sanitizes a non-empty error
(so the message can differ from `lastValidationError`), and the non-error
messages are the source's Spanish strings, not the English strings
asserted by the claim. -/
theorem C8_counterexample :
    getScheduleStatus 1 2 "a&b" = ⟨"a&amp;b", true⟩ ∧
    ("a&amp;b" : String) ≠ "a&b" ∧
    getScheduleStatus 3 3 "" = ⟨"Listo para programar", false⟩ ∧
    ("Listo para programar" : String) ≠ "ready to schedule" := by
  refine ⟨by decide, by decide, rfl, by decide⟩

/-! ### Claim C7 -/

/-- C7 (amended): on well-formed ISO dates the validator applies the rules
in order — empty selection, any date falling on a UTC Monday, any two
chronologically adjacent dates exactly one calendar day apart — with the
first failing rule determining the result, and the reason strings are the
source's Spanish messages. -/
theorem C7_amended (days : List String) (hv : ∀ s ∈ days, isValidDateStr s = true) :
    isValidSchedule days =
      if days = [] then ⟨false, some "Selecciona al menos un día"⟩
      else if days.any (fun s => utcDayOfWeek s == 1) then
        ⟨false, some "No se permiten lunes"⟩
      else if specHasConsecutive days then
        ⟨false, some "No se permiten días consecutivos"⟩
      else ⟨true, none⟩ := by
  by_cases hempty : days = []
  · subst hempty
    rfl
  · have hne : days.isEmpty = false := by
      cases days
      · exact absurd rfl hempty
      · rfl
    rw [if_neg hempty]
    cases hmon : days.any (fun s => utcDayOfWeek s == 1)
    · simp only [isValidSchedule, hne, Bool.false_eq_true, if_false]
      rw [buildDateInfo_ok days hmon]
      have hmap : days.map (fun s => epochDayOfStr s * MS_PER_DAY) =
          (days.map epochDayOfStr).map (fun x => x * MS_PER_DAY) := by
        simp [List.map_map, Function.comp]
      show (if hasConsecutive (sortTs (days.map (fun s => epochDayOfStr s * MS_PER_DAY))) = true
            then ({ ok := false, reason := some "No se permiten días consecutivos" } :
              ScheduleResult)
            else { ok := true, reason := none }) =
          (if specHasConsecutive days = true
            then ({ ok := false, reason := some "No se permiten días consecutivos" } :
              ScheduleResult)
            else { ok := true, reason := none })
      rw [hmap, sortTs_map_mul, hasConsecutive_map]
      rfl
    · simp only [isValidSchedule, hne, Bool.false_eq_true, if_false]
      rw [buildDateInfo_error days hmon]
      rw [if_pos trivial]

/-- C7 (witness for the amended claim): the spec's accepted example
`["2024-06-18", "2024-06-20"]` (Tue/Thu) validates. -/
theorem C7_amended_witness :
    (∀ s ∈ ["2024-06-18", "2024-06-20"], isValidDateStr s = true) ∧
    isValidSchedule ["2024-06-18", "2024-06-20"] = ⟨true, none⟩ :=
  ⟨by decide, (C7_amended ["2024-06-18", "2024-06-20"] (by decide)).trans (by decide)⟩

/-! ### Claim C8 -/

/-- C8 (amended): the status formatter returns
`{message: sanitizeText(error), isError: true}` for a non-empty error —
which equals the error itself whenever the error contains none of the five
HTML-special characters — and otherwise the source's Spanish messages
`"Listo para programar"` (counts equal) or
`"Selecciona las fechas requeridas"` (counts differ), with `isError`
false. -/
theorem C8_amended (s t : Nat) (e : String) :
    (e ≠ "" → getScheduleStatus s t e = ⟨sanitizeText e, true⟩) ∧
    (e ≠ "" → (∀ c ∈ e.data, isHtmlSpecial c = false) →
      getScheduleStatus s t e = ⟨e, true⟩) ∧
    (e = "" → s = t → getScheduleStatus s t e = ⟨"Listo para programar", false⟩) ∧
    (e = "" → s ≠ t → getScheduleStatus s t e = ⟨"Selecciona las fechas requeridas", false⟩) := by
  refine ⟨?_, ?_, ?_, ?_⟩
  · intro he
    simp [getScheduleStatus, he]
  · intro he hc
    rw [getScheduleStatus, if_pos he, sanitizeText_id e hc]
  · intro he hst
    simp [getScheduleStatus, he, hst]
  · intro he hst
    simp [getScheduleStatus, he, hst]

/-- C8 (witness for the amended claim): a Spanish validation error without
special characters is passed through verbatim with `isError = true`. -/
theorem C8_amended_witness :
    ("No se permiten lunes" : String) ≠ "" ∧
    getScheduleStatus 1 2 "No se permiten lunes" = ⟨"No se permiten lunes", true⟩ :=
  ⟨by decide, (C8_amended 1 2 "No se permiten lunes").2.1 (by decide) (by decide)⟩

/-! ### Remaining witnesses -/

/-- C4 (witness for the amended claim): on ballots whose candidate ids are
not array-index-like, the enumeration order is the insertion order. -/
theorem C4_amended_witness :
    objectKeys (tally (usedVotesOf votesC5 ⟨false, false⟩ [])) =
      tally (usedVotesOf votesC5 ⟨false, false⟩ []) :=
  (C4_amended [] votesC5 [] ⟨false, false⟩ []).2.2.2 (by decide)

/-- C5 (witness): at the concrete input — three ballots for `c`, one of
them the Executive's — the winning row receives 3 days. -/
theorem C5_witness :
    ((computeResults [] votesC5 usersG ⟨false, false⟩ []).rows.getD 0 defaultRow).days = 3 :=
  ((C5_base_day_rule [] votesC5 usersG false [] 0 (by decide)).1).trans (by decide)

/-- C6 (witness): the spec's four-ballot discard scenario, with draw 2:
exactly one ballot is excluded and its voter identity is reported. -/
theorem C6_witness :
    ∃ idx : Nat, idx < votesC6.length ∧
      (computeResults [] votesC6 [] ⟨true, false⟩ [2]).discardedVoterId =
        some ((votesC6.getD idx defaultVote).voterId) ∧
      (computeResults [] votesC6 [] ⟨true, false⟩ [2]).rows =
        (computeResults [] (removeIdx votesC6 idx) [] ⟨false, false⟩ ([2] : List Nat).tail).rows ∧
      (removeIdx votesC6 idx).length + 1 = votesC6.length :=
  (C6_discard [] votesC6 [] false [2]).2 (by decide)

end HomeOffice
